import Mathlib

/-!
Verification of the concurrency/state-machine core of `examples/pomodoro.rs`
(hakkaa firmware): a debounced button pipeline feeding a one-shot notification
channel, and a two-phase work/break orchestrator racing LED animations against
countdown timers.

The async Rust code is shallowly embedded as event traces: each `async fn` is
translated into the (finite) list of observable actions it performs, in program
order, with durations in the units the source uses (milliseconds for the
debounce delay, seconds for the phase timers).  The race combinator
`embassy_futures::select` is given a small-step timed semantics over a process
type, and the notification channel (`embassy_sync::signal::Signal`) is given a
single-slot state model.
-/

/- ## Button-side event traces

Events performed by `wait_for_button`, `wait_for_button_n_times` and
`button_task`.  `delayMs` carries the duration of a timed wait in
milliseconds; `signalChan` is `signal.signal(())` on the `ButtonSignal`. -/

inductive BEv where
  | waitForHigh : BEv
  | waitForLow : BEv
  | delayMs (d : Nat) : BEv
  | logDebug (s : String) : BEv
  | signalChan : BEv
deriving DecidableEq, Repr

/-- The debounce window used by `wait_for_button`: `Duration::from_millis(100)`. -/
def debounce_delay_ms : Nat := 100

/-- Trace of `wait_for_button`: log, wait-for-high, 100 ms delay, wait-for-low,
100 ms delay, wait-for-high, in program order (from `examples/pomodoro.rs`). -/
def wait_for_button : List BEv :=
  [ .logDebug "waiting for switch",
    .logDebug "waiting for high",
    .waitForHigh,
    .delayMs debounce_delay_ms,
    .logDebug "waiting for low",
    .waitForLow,
    .delayMs debounce_delay_ms,
    .logDebug "waiting for high again",
    .waitForHigh ]

/-- Trace of `wait_for_button_n_times`: the `for _ in 0..n` loop awaiting
`wait_for_button` on each iteration. -/
def wait_for_button_n_times : Nat → List BEv
  | 0 => []
  | n + 1 => wait_for_button ++ wait_for_button_n_times n

/-- One iteration of the `loop` body of `button_task`: await a single
debounced press, then signal the channel. -/
def button_task_body : List BEv :=
  wait_for_button ++ [.signalChan]

/-- Trace of the first `k` iterations of `button_task`'s infinite loop. -/
def button_task_trace (k : Nat) : List BEv :=
  (List.replicate k button_task_body).flatten

/-- Number of completed debounced press gestures in a trace: each
`wait_for_button` performs exactly one wait-for-low, so we count those. -/
def pressCount (evs : List BEv) : Nat :=
  evs.count .waitForLow

/-- Number of notifications emitted on the channel in a trace. -/
def signalCount (evs : List BEv) : Nat :=
  evs.count .signalChan

/- ## Timed semantics of the debounce sequence

`findLevel line lvl fuel t` is the first time `t' ≥ t` at which the sampled
input line has level `lvl` (fuel-bounded search; `none` models an unbounded
wait on a stuck line).  `runB` executes a button-event trace against a line,
threading the current time: `wait_for_high`/`wait_for_low` suspend until the
level is observed, `delayMs` advances time, logging takes no time. -/

def findLevel (line : Nat → Bool) (lvl : Bool) : Nat → Nat → Option Nat
  | 0, _ => none
  | fuel + 1, t => if line t = lvl then some t else findLevel line lvl fuel (t + 1)

def runB (line : Nat → Bool) (fuel : Nat) : List BEv → Nat → Option Nat
  | [], t => some t
  | .waitForHigh :: evs, t => (findLevel line true fuel t).bind (runB line fuel evs)
  | .waitForLow :: evs, t => (findLevel line false fuel t).bind (runB line fuel evs)
  | .delayMs d :: evs, t => runB line fuel evs (t + d)
  | .logDebug _ :: evs, t => runB line fuel evs t
  | .signalChan :: evs, t => runB line fuel evs t

/-- Events that consume time or observe the line, as opposed to debug logging. -/
def BEv.isTimed : BEv → Bool
  | .logDebug _ => false
  | _ => true

/- ## The one-shot notification channel

Modelled from the spec: the Notification Channel is
`embassy_sync::signal::Signal<CriticalSectionRawMutex, ()>` (the `ButtonSignal`
type alias), an external crate not under `src/`.  Per the spec it is a
single-slot primitive: `signal()` marks the slot signaled (idempotent),
`reset()` clears it (idempotent), and `wait()` returns immediately iff the
slot is signaled, clearing it (single-consumption); otherwise it suspends.
`tryConsume` returns `some` of the post-wait state when `wait()` would return
immediately, and `none` when it would suspend. -/

structure ButtonSignal where
  slot : Bool
deriving DecidableEq, Repr

def ButtonSignal.signal (_ : ButtonSignal) : ButtonSignal := ⟨true⟩

def ButtonSignal.reset (_ : ButtonSignal) : ButtonSignal := ⟨false⟩

def ButtonSignal.tryConsume (s : ButtonSignal) : Option ButtonSignal :=
  if s.slot then some ⟨false⟩ else none

/-- `k` successive `signal()` calls with no intervening `wait()`. -/
def signalK : Nat → ButtonSignal → ButtonSignal
  | 0, s => s
  | k + 1, s => signalK k s.signal

/-- Producer-side operations that may happen on the channel while the
consumer is suspended in `wait()`. -/
inductive SigOp where
  | signalOp : SigOp
  | resetOp : SigOp
deriving DecidableEq, Repr

def applySigOp : SigOp → ButtonSignal → ButtonSignal
  | .signalOp, s => s.signal
  | .resetOp, s => s.reset

def applySigOps : List SigOp → ButtonSignal → ButtonSignal
  | [], s => s
  | op :: ops, s => applySigOps ops (applySigOp op s)

/- ## The orchestrator trace

`pomodoro_task` is embedded as a trace parametrized by the outcome of each
race (`Either::First` = the animation side finished first, `Either::Second` =
the timer side), since the `match` arms only differ in the debug message. -/

inductive Anim where
  | cycle : Anim
  | blink : Anim
deriving DecidableEq, Repr

inductive RaceOutcome where
  | animFirst : RaceOutcome
  | timerSecond : RaceOutcome
deriving DecidableEq, Repr

inductive PomEv where
  | logInfo (s : String) : PomEv
  | logDebug (s : String) : PomEv
  | chanReset : PomEv
  | chanWait : PomEv
  | raceEv (a : Anim) (stepSecs : Nat) (timerSecs : Nat) : PomEv
  | ledSwitchOff : PomEv
deriving DecidableEq, Repr

/-- `let step = Duration::from_secs(1)` — the animation step cadence. -/
def step_secs : Nat := 1

/-- `Duration::from_secs(60 * 25)` — the work-phase countdown. -/
def pomodoro_timer_secs : Nat := 60 * 25

/-- `Duration::from_secs(60 * 5)` — the break-phase countdown. -/
def break_timer_secs : Nat := 60 * 5

def raceDebugMsg : Anim → RaceOutcome → String
  | .cycle, .animFirst => "cycle done"
  | .cycle, .timerSecond => "timer done"
  | .blink, .animFirst => "blink done"
  | .blink, .timerSecond => "break timer done"

/-- Trace of `pomodoro_task`, in program order, given the outcome `w` of the
work-phase race and `b` of the break-phase race.  Note the commented-out
`first_button.wait().await` in the source contributes no event. -/
def pomodoro_task (w b : RaceOutcome) : List PomEv :=
  [ .logInfo "Pomodoro Timer: Press the button three times to start a 25 minute timer.",
    .chanReset,
    .raceEv .cycle step_secs pomodoro_timer_secs,
    .logDebug (raceDebugMsg .cycle w),
    .logInfo "Pomodoro timer finished! Taking a short 5 minute break.",
    .raceEv .blink step_secs break_timer_secs,
    .logDebug (raceDebugMsg .blink b),
    .ledSwitchOff,
    .logInfo "Press Ctrl + C to exit." ]

def PomEv.isRace : PomEv → Bool
  | .raceEv _ _ _ => true
  | _ => false

def PomEv.isLogDebug : PomEv → Bool
  | .logDebug _ => true
  | _ => false

/- ## The entry point `main`

`main` spawns `button_task` once and `pomodoro_task` once, then loops forever
awaiting a 3-second delay.  We record the spawn sequence and the loop body. -/

inductive MainEv where
  | spawnButtonTask : MainEv
  | spawnPomodoroTask : MainEv
  | delaySecs (d : Nat) : MainEv
deriving DecidableEq, Repr

def main_init : List MainEv :=
  [.spawnButtonTask, .spawnPomodoroTask]

def main_loop_body : List MainEv :=
  [.delaySecs 3]

/- ## `delay` and `timer`

Both helpers are a bare `Timer::after(d).await`; embedded as the singleton
trace of that await. -/

inductive SleepEv where
  | timerAfter (d : Nat) : SleepEv
deriving DecidableEq, Repr

def Timer_after (d : Nat) : List SleepEv := [.timerAfter d]

def delay (duration : Nat) : List SleepEv := Timer_after duration

def timer (minutes : Nat) : List SleepEv := Timer_after minutes

/- ## Timed semantics of the race combinator

Modelled from the spec: `embassy_futures::select::select` is an external
crate.  Per the spec it is a first-completion race under single-threaded
cooperative scheduling: both operands run interleaved, the first to complete
wins (on a simultaneous wake the first operand is polled first), and the
losing operand is dropped at that point, reaching none of its remaining
suspension points and committing no further side effects.

A cooperative process is either finished, suspended for a duration, or
committing an observable effect and continuing.  `selectRun` executes two
processes against a shared clock, advancing whichever has the earlier wake
time, accumulating committed effects, and stopping the moment either side
finishes; the result carries the winner, the resolution time, and the effects
committed before resolution. -/

inductive Proc (α : Type) where
  | done : Proc α
  | delayThen (d : Nat) (k : Proc α) : Proc α
  | emit (e : α) (k : Proc α) : Proc α
deriving DecidableEq, Repr

inductive Winner where
  | first : Winner
  | second : Winner
deriving DecidableEq, Repr

/-- Run a process up to its next suspension point (or completion), collecting
the effects it commits on the way: they take no time. -/
def flush {α : Type} : Proc α → List α × Proc α
  | .done => ([], .done)
  | .delayThen d k => ([], .delayThen d k)
  | .emit e k =>
      let (es, p) := flush k
      (e :: es, p)

/-- Absolute wake time of a flushed process suspended at time `t`. -/
def wake {α : Type} (t : Nat) : Proc α → Nat
  | .delayThen d _ => t + d
  | _ => t

/-- Race loop.  Invariant: `p1` and `p2` are flushed (either `done` or
`delayThen`), `w1`/`w2` are their absolute wake times, `t` the current time,
`acc` the effects committed so far.  At each step the side that is already
done wins (first checked first, matching poll order); otherwise the side with
the earlier wake (ties to the first) advances past its suspension point and
runs to its next one. -/
def selectAux {α : Type} :
    Nat → Nat → Proc α → Nat → Proc α → Nat → List α → Option (Winner × Nat × List α)
  | 0, _, _, _, _, _, _ => none
  | fuel + 1, t, p1, w1, p2, w2, acc =>
    match p1 with
    | .done => some (.first, t, acc)
    | _ =>
      match p2 with
      | .done => some (.second, t, acc)
      | _ =>
        if w1 ≤ w2 then
          match p1 with
          | .delayThen _ k =>
              let (es, p1') := flush k
              selectAux fuel w1 p1' (wake w1 p1') p2 w2 (acc ++ es)
          | _ => none
        else
          match p2 with
          | .delayThen _ k =>
              let (es, p2') := flush k
              selectAux fuel w2 p1 w1 p2' (wake w2 p2') (acc ++ es)
          | _ => none

/-- `select(f1, f2).await`: poll the first operand, then the second, then run
the race loop from time 0. -/
def select {α : Type} (fuel : Nat) (p1 p2 : Proc α) : Option (Winner × Nat × List α) :=
  let (es1, q1) := flush p1
  match q1 with
  | .done => some (.first, 0, es1)
  | _ =>
    let (es2, q2) := flush p2
    match q2 with
    | .done => some (.second, 0, es1 ++ es2)
    | _ => selectAux fuel 0 q1 (wake 0 q1) q2 (wake 0 q2) (es1 ++ es2)

/-- A stepping LED animation as a process: each step suspends for the step
duration `s` and then commits its visible effect.  `storeys.cycle(step)` is
such an animation with a fixed finite list of steps at cadence `s`. -/
def animProc {α : Type} (s : Nat) : List α → Proc α
  | [] => .done
  | e :: es => .delayThen s (.emit e (animProc s es))

/-- The countdown side of each race, `timer(d)`: suspend for `d`, commit
nothing, finish. -/
def timerProc {α : Type} (d : Nat) : Proc α := .delayThen d .done

/-- Total duration of a stepping animation with `n` steps at cadence `s`. -/
def animDuration {α : Type} (s : Nat) (es : List α) : Nat := es.length * s

/-- A concrete input line for exercising the debounce semantics: high before
100 ms, bouncing low through 200 ms, then high again from 201 ms on. -/
def lineW : Nat → Bool :=
  fun t => decide (t < 100) || decide (200 < t)

/- ## Helper lemmas -/

theorem findLevel_some {line : Nat → Bool} {lvl : Bool} :
    ∀ {fuel t t' : Nat}, findLevel line lvl fuel t = some t' → t ≤ t' ∧ line t' = lvl := by
  intro fuel
  induction fuel with
  | zero => intro t t' h; simp [findLevel] at h
  | succ n ih =>
    intro t t' h
    by_cases hl : line t = lvl
    · simp [findLevel, hl] at h
      exact ⟨Nat.le_of_eq h, h ▸ hl⟩
    · simp [findLevel, hl] at h
      obtain ⟨h1, h2⟩ := ih h
      exact ⟨by omega, h2⟩

theorem signalK_succ : ∀ (k : Nat) (s : ButtonSignal), signalK (k + 1) s = ⟨true⟩ := by
  intro k
  induction k with
  | zero => intro s; rfl
  | succ n ih => intro s; exact ih s.signal

theorem applySigOps_no_signal :
    ∀ (ops : List SigOp), SigOp.signalOp ∉ ops →
      applySigOps ops ⟨false⟩ = ⟨false⟩ := by
  intro ops
  induction ops with
  | nil => intro _; rfl
  | cons op rest ih =>
    intro h
    cases op with
    | signalOp => exact absurd (List.mem_cons_self _ _) h
    | resetOp =>
      have : SigOp.signalOp ∉ rest := fun hm => h (List.mem_cons_of_mem _ hm)
      simp only [applySigOps, applySigOp, ButtonSignal.reset]
      exact ih this

theorem selectAux_anim_first {α : Type} (s : Nat) :
    ∀ (es : List α) (e : α) (t d W fuel : Nat) (acc : List α),
      es.length + 2 ≤ fuel → t + (es.length + 1) * s ≤ W →
      selectAux fuel t (animProc s (e :: es)) (t + s) (timerProc d) W acc =
        some (.first, t + (es.length + 1) * s, acc ++ (e :: es)) := by
  intro es
  induction es with
  | nil =>
    intro e t d W fuel acc hfuel hW
    obtain ⟨f, rfl⟩ : ∃ f, fuel = f + 2 := ⟨fuel - 2, by omega⟩
    simp only [List.length_nil, Nat.zero_add, Nat.one_mul] at hW ⊢
    simp only [animProc, timerProc, selectAux, flush, wake, if_pos hW]
  | cons e' rest ih =>
    intro e t d W fuel acc hfuel hW
    obtain ⟨f, rfl⟩ : ∃ f, fuel = f + 1 := ⟨fuel - 1, by omega⟩
    rw [List.length_cons] at hW hfuel
    have hexp : (rest.length + 1 + 1) * s = (rest.length + 1) * s + s := by ring
    have hstep : t + s ≤ W := by omega
    simp only [animProc, timerProc, selectAux, flush, wake, if_pos hstep]
    have H := ih e' (t + s) d W f (acc ++ [e]) (by omega) (by omega)
    simp only [animProc, timerProc] at H
    have htime : t + (rest.length + 1 + 1) * s = t + s + (rest.length + 1) * s := by ring
    have hlist : acc ++ (e :: e' :: rest) = (acc ++ [e]) ++ (e' :: rest) := by simp
    rw [List.length_cons, htime, hlist]
    exact H

theorem selectAux_timer_second {α : Type} (s : Nat) (hs : 0 < s) :
    ∀ (es : List α) (e : α) (t d W fuel : Nat) (acc : List α),
      es.length + 2 ≤ fuel → t ≤ W → W < t + (es.length + 1) * s →
      selectAux fuel t (animProc s (e :: es)) (t + s) (timerProc d) W acc =
        some (.second, W, acc ++ (e :: es).take ((W - t) / s)) := by
  intro es
  induction es with
  | nil =>
    intro e t d W fuel acc hfuel htW hW
    obtain ⟨f, rfl⟩ : ∃ f, fuel = f + 2 := ⟨fuel - 2, by omega⟩
    simp only [List.length_nil, Nat.zero_add, Nat.one_mul] at hW
    have hlt : ¬ (t + s ≤ W) := by omega
    have hdiv : (W - t) / s = 0 := Nat.div_eq_of_lt (by omega)
    simp only [animProc, timerProc, selectAux, flush, wake, if_neg hlt, hdiv,
      List.take_zero, List.append_nil]
  | cons e' rest ih =>
    intro e t d W fuel acc hfuel htW hW
    obtain ⟨f, rfl⟩ : ∃ f, fuel = f + 1 := ⟨fuel - 1, by omega⟩
    rw [List.length_cons] at hW hfuel
    have hexp : (rest.length + 1 + 1) * s = (rest.length + 1) * s + s := by ring
    by_cases hstep : t + s ≤ W
    · simp only [animProc, timerProc, selectAux, flush, wake, if_pos hstep]
      have hW' : W < (t + s) + (rest.length + 1) * s := by omega
      have H := ih e' (t + s) d W f (acc ++ [e]) (by omega) hstep hW'
      simp only [animProc, timerProc] at H
      have hdiv : (W - t) / s = (W - t - s) / s + 1 :=
        Nat.div_eq_sub_div hs (by omega)
      have hsub : W - (t + s) = W - t - s := by omega
      rw [hdiv, List.take_succ_cons]
      rw [show acc ++ (e :: List.take ((W - t - s) / s) (e' :: rest)) =
          (acc ++ [e]) ++ List.take ((W - t - s) / s) (e' :: rest) by simp]
      rw [← hsub]
      exact H
    · have hlt : ¬ (t + s ≤ W) := hstep
      have hdiv : (W - t) / s = 0 := Nat.div_eq_of_lt (by omega)
      obtain ⟨f', rfl⟩ : ∃ f', f = f' + 1 := ⟨f - 1, by omega⟩
      simp only [animProc, timerProc, selectAux, flush, wake, if_neg hlt, hdiv,
        List.take_zero, List.append_nil]

/- ## Claim theorems -/

/-- Claim C1: the claim states that `button_task` signals the Notification
Channel only after three consecutive clean presses.  The code contradicts its
own doc comment ("Task waiting for three times an input") and the comment in
`main` ("Each triplet of presses will generate as signal"): the loop body
awaits a single `wait_for_button` and then signals, so after exactly one
completed debounced press (fewer than three) a notification is already
emitted.  This theorem evaluates the code at that failing input: one loop
iteration contains exactly one press gesture and already one signal. -/
theorem button_task_signals_after_one_press :
    button_task_trace 1 = wait_for_button ++ [BEv.signalChan] ∧
    pressCount (button_task_trace 1) = 1 ∧
    signalCount (button_task_trace 1) = 1 ∧
    ¬ (3 ≤ pressCount (button_task_trace 1)) := by
  refine ⟨rfl, rfl, rfl, by decide⟩

/-- Claim C2: the orchestrator's entry logs a prompt and resets the
Notification Channel, then proceeds straight into the work-phase race; the
task never waits on the channel — in particular not before the first race. -/
theorem pomodoro_entry_no_wait (w b : RaceOutcome) :
    PomEv.chanWait ∉ pomodoro_task w b ∧
    (pomodoro_task w b).takeWhile (fun e => !e.isRace) =
      [.logInfo "Pomodoro Timer: Press the button three times to start a 25 minute timer.",
       .chanReset] := by
  cases w <;> cases b <;> exact ⟨by decide, rfl⟩

/-- Claim C3: the work phase races the stepping `cycle` animation at a
1-second cadence against a 25-minute countdown, the break phase races the
`blink` animation against a 5-minute countdown, and apart from the debug
message the trace is the same whichever side of each race completes first:
both outcomes of the work race lead to the break phase, and both outcomes of
the break race lead to cycle completion. -/
theorem pomodoro_phase_races (w b : RaceOutcome) :
    (pomodoro_task w b).filter (fun e => !e.isLogDebug) =
      [ .logInfo "Pomodoro Timer: Press the button three times to start a 25 minute timer.",
        .chanReset,
        .raceEv .cycle 1 (25 * 60),
        .logInfo "Pomodoro timer finished! Taking a short 5 minute break.",
        .raceEv .blink 1 (5 * 60),
        .ledSwitchOff,
        .logInfo "Press Ctrl + C to exit." ] := by
  cases w <;> cases b <;> rfl

/-- Claim C4: channel single-consumption.  After `signal()` has been called
`k ≥ 1` times with no intervening `wait()`, the state equals that after a
single `signal()` (repeated signaling is idempotent, at most one outstanding
signal is stored), one `wait()` returns immediately and clears the slot, a
second `wait()` on the cleared slot suspends, and it returns again only once
another `signal()` occurs. -/
theorem channel_single_consumption (s : ButtonSignal) (k : Nat) (hk : 1 ≤ k) :
    signalK k s = s.signal ∧
    (signalK k s).tryConsume = some ⟨false⟩ ∧
    (ButtonSignal.mk false).tryConsume = none ∧
    (ButtonSignal.mk false).signal.tryConsume = some ⟨false⟩ := by
  obtain ⟨k', rfl⟩ : ∃ k', k = k' + 1 := ⟨k - 1, by omega⟩
  refine ⟨?_, ?_, rfl, rfl⟩
  · rw [signalK_succ]; rfl
  · rw [signalK_succ]; rfl

theorem channel_single_consumption_witness :
    signalK 2 ⟨false⟩ = (ButtonSignal.mk false).signal ∧
    (signalK 2 ⟨false⟩).tryConsume = some ⟨false⟩ ∧
    (ButtonSignal.mk false).tryConsume = none ∧
    (ButtonSignal.mk false).signal.tryConsume = some ⟨false⟩ :=
  channel_single_consumption ⟨false⟩ 2 (by decide)

/-- Claim C6: `wait_for_button_n_times n` is exactly `n` sequential copies of
the `wait_for_button` trace: it performs exactly `n` complete press gestures,
never fewer, never more. -/
theorem wait_for_button_n_times_spec (n : Nat) :
    wait_for_button_n_times n = (List.replicate n wait_for_button).flatten ∧
    pressCount (wait_for_button_n_times n) = n := by
  induction n with
  | zero => exact ⟨rfl, rfl⟩
  | succ n ih =>
    constructor
    · simp only [wait_for_button_n_times, List.replicate_succ, List.flatten_cons, ih.1]
    · simp only [wait_for_button_n_times, pressCount, List.count_append]
      have h1 : wait_for_button.count BEv.waitForLow = 1 := by decide
      have h2 := ih.2
      simp only [pressCount] at h2
      omega

/-- Claim C7: channel reset.  After `reset()`, a `wait()` suspends and keeps
suspending across any further producer activity that contains no new
`signal()` — even if `signal()` had been called any number of times before
the `reset()` (the state `s` is arbitrary) — and returns as soon as a new
`signal()` occurs. -/
theorem channel_reset_blocks (s : ButtonSignal) (ops : List SigOp)
    (h : SigOp.signalOp ∉ ops) :
    (applySigOps ops s.reset).tryConsume = none ∧
    (applySigOps ops s.reset).signal.tryConsume = some ⟨false⟩ := by
  have hres : s.reset = ⟨false⟩ := rfl
  rw [hres, applySigOps_no_signal ops h]
  exact ⟨rfl, rfl⟩

theorem channel_reset_blocks_witness :
    (applySigOps [SigOp.resetOp] (ButtonSignal.mk true).reset).tryConsume = none ∧
    (applySigOps [SigOp.resetOp] (ButtonSignal.mk true).reset).signal.tryConsume =
      some ⟨false⟩ :=
  channel_reset_blocks ⟨true⟩ [SigOp.resetOp] (by decide)

/-- Claim C9: after the break-phase race the orchestrator switches the
indicator output off — the only indicator write in its whole trace, occurring
after both races — then logs the completion prompt and the trace ends; and
`main` spawns the orchestrator exactly once, its eternal idle loop containing
no further spawn, so the cycle is not restarted. -/
theorem pomodoro_exit_frame (w b : RaceOutcome) :
    (pomodoro_task w b).count .ledSwitchOff = 1 ∧
    (pomodoro_task w b).drop 7 = [.ledSwitchOff, .logInfo "Press Ctrl + C to exit."] ∧
    PomEv.raceEv .blink step_secs break_timer_secs ∈ (pomodoro_task w b).take 7 ∧
    main_init.count .spawnPomodoroTask = 1 ∧
    MainEv.spawnPomodoroTask ∉ main_loop_body := by
  cases w <;> cases b <;> exact ⟨rfl, rfl, by decide, rfl, by decide⟩

/-- Claim C10: the helpers `delay` and `timer` are extensionally equal — each
is exactly the single await of `Timer::after` on its argument, so the
countdown side of each race is the same operation as the plain delay. -/
theorem delay_timer_extensional (d : Nat) :
    delay d = timer d ∧ delay d = Timer_after d :=
  ⟨rfl, rfl⟩

/-- Claim C8: race first-wins.  For a stepping animation of total duration
`A = animDuration s es` raced (as the first operand, matching the source)
against the countdown `timer(D)`: if `A < D` the race resolves at time `A`
via the animation path — strictly before the timer's completion time `D`, so
the timer side never completes — with every animation step committed; if
`D < A` it resolves at time `D` via the timer path, and the committed effects
are exactly the steps completed by time `D` (`es.take (D / s)`): the
abandoned animation reaches none of its remaining suspension points and
performs no further side effects. -/
theorem select_race_first_wins {α : Type} (s : Nat) (es : List α) (D fuel : Nat)
    (hs : 0 < s) (hfuel : es.length + 2 ≤ fuel) :
    (animDuration s es < D →
      select fuel (animProc s es) (timerProc D) =
        some (.first, animDuration s es, es)) ∧
    (D < animDuration s es →
      select fuel (animProc s es) (timerProc D) =
        some (.second, D, es.take (D / s))) := by
  cases es with
  | nil =>
    constructor
    · intro _
      simp [select, animProc, timerProc, flush, animDuration]
    · intro h
      simp [animDuration] at h
  | cons e es =>
    have hsel : select fuel (animProc s (e :: es)) (timerProc D) =
        selectAux fuel 0 (animProc s (e :: es)) (0 + s) (timerProc D) (0 + D) [] := by
      simp [select, animProc, timerProc, flush, wake]
    constructor
    · intro hAD
      rw [hsel, selectAux_anim_first s es e 0 D (0 + D) fuel []
        (by simp [List.length_cons] at hfuel; omega)
        (by simp [animDuration, List.length_cons] at hAD ⊢; omega)]
      simp only [Nat.zero_add, List.nil_append]
      have : animDuration s (e :: es) = (es.length + 1) * s := by
        simp [animDuration, List.length_cons]
      rw [this]
    · intro hDA
      rw [hsel, selectAux_timer_second s hs es e 0 D (0 + D) fuel []
        (by simp [List.length_cons] at hfuel; omega) (by omega)
        (by simp [animDuration, List.length_cons] at hDA ⊢; omega)]
      simp

theorem select_race_first_wins_witness :
    select 5 (animProc 1 [0, 1, 2]) (timerProc 10) =
      some (Winner.first, animDuration 1 [0, 1, 2], [0, 1, 2]) ∧
    select 5 (animProc 1 [0, 1, 2]) (timerProc 2) =
      some (Winner.second, 2, List.take (2 / 1) [0, 1, 2]) :=
  ⟨(select_race_first_wins 1 [0, 1, 2] 10 5 (by decide) (by decide)).1 (by decide),
   (select_race_first_wins 1 [0, 1, 2] 2 5 (by decide) (by decide)).2 (by decide)⟩

/-- Claim C5: the debounce sequence of `wait_for_button`.  Its timed events,
in strict program order and with nothing else interleaved, are wait-for-high,
a 100 ms delay, wait-for-low, a 100 ms delay, wait-for-high; it performs no
side effect (in particular it never signals the channel); and whenever a run
over an input line returns at time `T`, a full high → (100 ms) → low →
(100 ms) → high gesture was observed: there are sample times `t1 ≤ t2` with
the line high at `t1`, low at `t2` at least 100 ms later, and high again at
the return time `T`, itself at least 100 ms after `t2` — so it never returns
early on a bounce inside either debounce window. -/
theorem wait_for_button_debounce (line : Nat → Bool) (fuel t T : Nat)
    (h : runB line fuel wait_for_button t = some T) :
    wait_for_button.filter BEv.isTimed =
      [.waitForHigh, .delayMs 100, .waitForLow, .delayMs 100, .waitForHigh] ∧
    BEv.signalChan ∉ wait_for_button ∧
    ∃ t1 t2, t ≤ t1 ∧ t1 + 100 ≤ t2 ∧ t2 + 100 ≤ T ∧
      line t1 = true ∧ line t2 = false ∧ line T = true := by
  refine ⟨by decide, by decide, ?_⟩
  simp only [wait_for_button, runB, debounce_delay_ms, Option.bind_eq_some] at h
  obtain ⟨t1, h1, h⟩ := h
  obtain ⟨t2, h2, h⟩ := h
  obtain ⟨t3, h3, h⟩ := h
  obtain ⟨ht1, hl1⟩ := findLevel_some h1
  obtain ⟨ht2, hl2⟩ := findLevel_some h2
  obtain ⟨ht3, hl3⟩ := findLevel_some h3
  have hT : t3 = T := by simpa using h
  exact ⟨t1, t2, ht1, ht2, by omega, hl1, hl2, hT ▸ hl3⟩

theorem wait_for_button_debounce_witness :
    (wait_for_button.filter BEv.isTimed =
      [.waitForHigh, .delayMs 100, .waitForLow, .delayMs 100, .waitForHigh]) ∧
    BEv.signalChan ∉ wait_for_button ∧
    ∃ t1 t2, 0 ≤ t1 ∧ t1 + 100 ≤ t2 ∧ t2 + 100 ≤ 201 ∧
      lineW t1 = true ∧ lineW t2 = false ∧ lineW 201 = true :=
  wait_for_button_debounce lineW 300 0 201 (by decide)
